import Mathlib

/-!
Verification of the data-access and report-aggregation layer of a
browser-based expense tracker (`src/services/idb.js` together with
`src/services/currencyService.js`).

Modelling conventions:
* JS numbers that can be NaN or Infinity are modelled as `Option ℚ`
  (`none` stands for a non-finite result: division by zero, or
  arithmetic on a missing object property).
* JS objects used as string-keyed maps (rate tables, the per-category
  accumulator) are modelled as association lists, which also captures
  the insertion ordering of string keys that `Object.keys` exposes.
* The IndexedDB store is explicit state (`DBState`); the wall clock and
  the network are oracle inputs (`DateStamp`, `FetchResult`).
* `index.getAll` on the `year_month` (resp. `year`) index returns the
  matching records ordered by index key and then by primary key; since
  every matched record shares the index key, the order is primary-key
  (id) order, which coincides with insertion order of the records list
  under the `WellFormed` invariant maintained by `addCost`.
-/

/-- A rate table: a JS object mapping currency-code strings to numbers. -/
def RateTable : Type := List (String × ℚ)

instance : DecidableEq RateTable := by
  unfold RateTable
  infer_instance

/-- Property access `rates[c]` on a rate-table object: the first binding
of the key, `none` when the property is absent (JS `undefined`). -/
def lookupRate : RateTable → String → Option ℚ
  | [], _ => none
  | (c, r) :: rest, cur => if c = cur then some r else lookupRate rest cur

/-- JS addition on possibly non-finite numbers. -/
def jadd : Option ℚ → Option ℚ → Option ℚ
  | some a, some b => some (a + b)
  | _, _ => none

/-- JS division: division by zero or by a missing value is non-finite. -/
def jdiv : Option ℚ → Option ℚ → Option ℚ
  | some a, some b => if b = 0 then none else some (a / b)
  | _, _ => none

/-- JS multiplication on possibly non-finite numbers. -/
def jmul : Option ℚ → Option ℚ → Option ℚ
  | some a, some b => some (a * b)
  | _, _ => none

/-- Model of `convertCurrency(amount, fromCurrency, toCurrency, rates)` from
idb.js: identity when the codes coincide, otherwise
`amount / rates[fromCurrency] * rates[toCurrency]` (USD pivot). -/
def convertCurrency (amount : ℚ) (fromCurrency toCurrency : String)
    (rates : RateTable) : Option ℚ :=
  if fromCurrency = toCurrency then
    some amount
  else
    jmul (jdiv (some amount) (lookupRate rates fromCurrency))
      (lookupRate rates toCurrency)

/-- The hardcoded fallback table of `fetchExchangeRates`:
`{ USD: 1, GBP: 0.6, EURO: 0.7, ILS: 3.4 }`. -/
def fallbackRates : RateTable :=
  [("USD", 1), ("GBP", 3/5), ("EURO", 7/10), ("ILS", 17/5)]

/-- Outcome of the network fetch issued by `fetchExchangeRates`: either
the request itself fails, or a response arrives with a status code and a
body that may or may not parse as a rate table (`none` = malformed). -/
inductive FetchResult where
  | networkError : FetchResult
  | response (status : Nat) (body : Option RateTable) : FetchResult

/-- Model of `fetchExchangeRates` from idb.js: throws (and catches) unless the
status is exactly 200 and the body parses; every failure path resolves
with `fallbackRates`. The function is total: it never rejects. -/
def fetchExchangeRates : FetchResult → RateTable
  | FetchResult.networkError => fallbackRates
  | FetchResult.response status body =>
      if status = 200 then
        match body with
        | some table => table
        | none => fallbackRates
      else
        fallbackRates

/-- A fetch outcome that the source treats as a failure (network error,
status other than 200, or malformed body). -/
def fetchFailed : FetchResult → Bool
  | FetchResult.response 200 (some _) => false
  | _ => true

/-- The components the source reads off a JS `Date` value `now`:
`getTime`, `getFullYear`, `getMonth() + 1`, `getDate`. A real `Date`
always yields a month in 1..12 and a day in 1..31. -/
structure DateStamp where
  timestamp : Int
  year : Int
  month : Nat
  day : Nat
deriving DecidableEq

/-- The caller-supplied cost object passed to `addCost`. -/
structure CostInput where
  sum : ℚ
  currency : String
  category : String
  description : String
deriving DecidableEq

/-- The value `addCost` resolves with: exactly the four input fields. -/
structure CostSummary where
  sum : ℚ
  currency : String
  category : String
  description : String
deriving DecidableEq

/-- A persisted record of the `costs` object store, as built by
`addCost`. -/
structure CostRecord where
  id : Nat
  sum : ℚ
  currency : String
  category : String
  description : String
  dateAdded : DateStamp
  year : Int
  month : Nat
  day : Nat
deriving DecidableEq

/-- The module state of idb.js: whether `dbInstance` is non-null, the
auto-increment counter of the `costs` store (IndexedDB starts at 1), and
the stored records in insertion order. -/
structure DBState where
  opened : Bool
  nextId : Nat
  records : List CostRecord
deriving DecidableEq

/-- The state before `openCostsDB` has resolved. -/
def initialDB : DBState :=
  { opened := false, nextId := 1, records := [] }

/-- The errors the layer rejects with. -/
inductive DBError where
  | notOpen
  | openFailed
  | insertFailed
  | reportFailed
deriving DecidableEq

/-- The message carried by each rejection in the source. -/
def DBError.message : DBError → String
  | DBError.notOpen => "Database not opened"
  | DBError.openFailed => "Failed to open database"
  | DBError.insertFailed => "Failed to add cost item"
  | DBError.reportFailed => "Failed to get report"

/-- Ids are strictly increasing along the records list (so list order is
id order) and below the auto-increment counter. `openCostsDB` starts
from this and `addCost` preserves it. -/
def WellFormed (st : DBState) : Prop :=
  (st.records.map (fun r => r.id)).Pairwise (· < ·) ∧
    ∀ r ∈ st.records, r.id < st.nextId

/-- Every stored record carries a month in 1..12, as stamped from
`now.getMonth() + 1` by `addCost`. -/
def ValidMonths (st : DBState) : Prop :=
  ∀ r ∈ st.records, 1 ≤ r.month ∧ r.month ≤ 12

/-- Model of `addCost(cost)` from idb.js: rejects with `Database not opened` when
`dbInstance` is null; otherwise stamps `now` and its components, assigns
the next auto-increment id, appends the record, and resolves with the
four input fields only. The engine-level write failure path
(`insertFailed`) is environmental and not modelled. -/
def addCost (st : DBState) (cost : CostInput) (now : DateStamp) :
    Except DBError CostSummary × DBState :=
  if st.opened then
    let costItem : CostRecord :=
      { id := st.nextId
        sum := cost.sum
        currency := cost.currency
        category := cost.category
        description := cost.description
        dateAdded := now
        year := now.year
        month := now.month
        day := now.day }
    (Except.ok
      { sum := costItem.sum
        currency := costItem.currency
        category := costItem.category
        description := costItem.description },
      { st with nextId := st.nextId + 1, records := st.records ++ [costItem] })
  else
    (Except.error DBError.notOpen, st)

/-- Model of `index("year_month").getAll([year, month])`: all records whose
`(year, month)` matches, in primary-key order (= list order under
`WellFormed`). -/
def queryYearMonth (st : DBState) (year : Int) (month : Nat) :
    List CostRecord :=
  st.records.filter (fun r => r.year = year ∧ r.month = month)

/-- Model of `index("year").getAll(year)`: all records whose `year` matches, in
primary-key order (= list order under `WellFormed`). -/
def queryYear (st : DBState) (year : Int) : List CostRecord :=
  st.records.filter (fun r => r.year = year)

/-- The nested `Date: { day: cost.day }` field of a display record. -/
structure DisplayDate where
  day : Nat
deriving DecidableEq

/-- One itemized cost of a monthly report, as mapped by `getReport`:
the stored sum and currency unconverted, plus the nested day. -/
structure DisplayCost where
  sum : ℚ
  currency : String
  category : String
  description : String
  Date : DisplayDate
deriving DecidableEq

/-- The `total` object of a monthly report. -/
structure ReportTotal where
  currency : String
  total : Option ℚ
deriving DecidableEq

/-- The value `getReport` resolves with. -/
structure Report where
  year : Int
  month : Nat
  costs : List DisplayCost
  total : ReportTotal
deriving DecidableEq

/-- The display record `getReport` builds from a stored record. -/
def displayOf (r : CostRecord) : DisplayCost :=
  { sum := r.sum
    currency := r.currency
    category := r.category
    description := r.description
    Date := { day := r.day } }

/-- Model of `getReport(year, month, currency)` from idb.js: matches on the
`year_month` index, maps each match to a display record without
conversion, and reduces the converted amounts into `total`. -/
def getReport (st : DBState) (year : Int) (month : Nat) (currency : String)
    (fetch : FetchResult) : Except DBError Report :=
  if st.opened then
    let costs := queryYearMonth st year month
    let rates := fetchExchangeRates fetch
    let convertedCosts := costs.map displayOf
    let total := convertedCosts.foldl
      (fun acc c => jadd acc (convertCurrency c.sum c.currency currency rates))
      (some 0)
    Except.ok
      { year := year
        month := month
        costs := convertedCosts
        total := { currency := currency, total := total } }
  else
    Except.error DBError.notOpen

/-- JS truthiness of the accumulator entry read by
`if (categoryTotals[cost.category])`: 0, NaN and a missing property are
falsy. -/
def jsTruthy : Option ℚ → Bool
  | none => false
  | some q => decide (q ≠ 0)

/-- Property read on the accumulator object. -/
def lookupAcc : List (String × Option ℚ) → String → Option (Option ℚ)
  | [], _ => none
  | (c, v) :: rest, cat =>
      if c = cat then some v else lookupAcc rest cat

/-- Property write `categoryTotals[cat] = v` on the accumulator object:
overwrites the existing binding in place, otherwise appends the key at
the end (JS string keys keep insertion order). -/
def setAcc : List (String × Option ℚ) → String → Option ℚ →
    List (String × Option ℚ)
  | [], cat, v => [(cat, v)]
  | (c, w) :: rest, cat, v =>
      if c = cat then (c, v) :: rest else (c, w) :: setAcc rest cat v

/-- One iteration of the `costs.forEach` loop of `getCostsByCategory`:
`if (categoryTotals[c]) { += v } else { = v }`. -/
def accumCategory (acc : List (String × Option ℚ)) (cat : String)
    (v : Option ℚ) : List (String × Option ℚ) :=
  match lookupAcc acc cat with
  | some e => if jsTruthy e then setAcc acc cat (jadd e v) else setAcc acc cat v
  | none => setAcc acc cat v

/-- One `{name, value}` entry of the pie-chart data. -/
structure CategoryEntry where
  name : String
  value : Option ℚ
deriving DecidableEq

/-- One iteration of the aggregation loop of `getCostsByCategory`. -/
def stepCategory (currency : String) (rates : RateTable)
    (acc : List (String × Option ℚ)) (c : CostRecord) :
    List (String × Option ℚ) :=
  accumCategory acc c.category
    (convertCurrency c.sum c.currency currency rates)

/-- Decimal digit test on a character ('0'..'9'). -/
def charDigit (ch : Char) : Bool :=
  decide ('0' ≤ ch) && decide (ch ≤ '9')

/-- Numeric value of a digit string. -/
def digitsToNat (l : List Char) : Nat :=
  l.foldl (fun n ch => n * 10 + (ch.toNat - 48)) 0

/-- ECMAScript array-index test: a property key is an array index when
it is a canonical numeric string (digits only, no leading zero except
"0" itself) whose value is below 2^32 - 1. `Object.keys` lists such
keys before all other string keys. -/
def isArrayIndex (s : String) : Bool :=
  let l := s.data
  !l.isEmpty && l.all charDigit &&
    (!(l.head? == some '0') || decide (l.length = 1)) &&
    decide (digitsToNat l < 4294967295)

/-- The numeric value an array-index key denotes. -/
def arrayIndexVal (s : String) : Nat :=
  digitsToNat s.data

/-- ECMAScript own-property enumeration order of a string-keyed object
whose keys were created in the order of `keys`: array-index keys first
in ascending numeric order, then the remaining string keys in creation
order. -/
def keyOrderJS (keys : List String) : List String :=
  List.insertionSort (fun a b => arrayIndexVal a ≤ arrayIndexVal b)
      (keys.filter isArrayIndex) ++
    keys.filter (fun k => !(isArrayIndex k))

/-- Model of `getCostsByCategory(year, month, currency)` from idb.js: same query
as `getReport`, accumulates converted amounts per category into a JS
object, then maps `Object.keys(categoryTotals)` — array-index-like keys
first in ascending numeric order, then the rest in creation order — to
`{name, value: categoryTotals[category]}`. -/
def getCostsByCategory (st : DBState) (year : Int) (month : Nat)
    (currency : String) (fetch : FetchResult) :
    Except DBError (List CategoryEntry) :=
  if st.opened then
    let costs := queryYearMonth st year month
    let rates := fetchExchangeRates fetch
    let categoryTotals := costs.foldl (stepCategory currency rates) []
    Except.ok ((keyOrderJS (categoryTotals.map Prod.fst)).map
      (fun k => { name := k, value := (lookupAcc categoryTotals k).getD none }))
  else
    Except.error DBError.notOpen

/-- The chart labels of `getYearlyReport`. -/
def monthNames : List String :=
  ["Jan", "Feb", "Mar", "Apr", "May", "Jun",
   "Jul", "Aug", "Sep", "Oct", "Nov", "Dec"]

/-- One `{month, total}` entry of the bar-chart data. -/
structure MonthEntry where
  month : String
  total : Option ℚ
deriving DecidableEq

/-- One iteration of the `costs.forEach` loop of `getYearlyReport`:
`monthlyTotals[cost.month - 1] += convertedAmount`. Stored months are
always 1..12 (stamped from `getMonth() + 1`), so the index is in
bounds; `List.set` coincides with the JS assignment there. -/
def bumpMonth (currency : String) (rates : RateTable)
    (acc : List (Option ℚ)) (c : CostRecord) : List (Option ℚ) :=
  acc.set (c.month - 1)
    (jadd (acc.getD (c.month - 1) none)
      (convertCurrency c.sum c.currency currency rates))

/-- Model of `getYearlyReport(year, currency)` from idb.js: matches on the `year`
index, scatters converted amounts into a 12-slot array initialised with
zeros, and pairs each slot with its month label. -/
def getYearlyReport (st : DBState) (year : Int) (currency : String)
    (fetch : FetchResult) : Except DBError (List MonthEntry) :=
  if st.opened then
    let costs := queryYear st year
    let rates := fetchExchangeRates fetch
    let monthlyTotals := costs.foldl (bumpMonth currency rates)
      (List.replicate 12 (some (0 : ℚ)))
    Except.ok
      (List.zipWith (fun total name => { month := name, total := total })
        monthlyTotals monthNames)
  else
    Except.error DBError.notOpen

/-- One secondary index definition (scalar key paths are modelled as
singleton lists, the composite `["year", "month"]` as a two-element
list). -/
structure IndexDef where
  name : String
  keyPath : List String
  unique : Bool
deriving DecidableEq

/-- An object-store definition as created by `createObjectStore`. -/
structure StoreDef where
  keyPath : String
  autoIncrement : Bool
  indexes : List IndexDef
deriving DecidableEq

/-- The database schema visible to `onupgradeneeded`. -/
structure IDBSchema where
  stores : List (String × StoreDef)
deriving DecidableEq

/-- Model of `db.objectStoreNames.contains(name)`. -/
def containsStore (db : IDBSchema) (name : String) : Bool :=
  db.stores.any (fun p => p.1 = name)

/-- Look up an object store by name. -/
def lookupStore : List (String × StoreDef) → String → Option StoreDef
  | [], _ => none
  | (n, s) :: rest, name =>
      if n = name then some s else lookupStore rest name

/-- The full `costs` store definition created by the React version of
idb.js: auto-incrementing `id` key and four non-unique indexes. -/
def fullCostsStore : StoreDef :=
  { keyPath := "id"
    autoIncrement := true
    indexes :=
      [{ name := "category", keyPath := ["category"], unique := false },
       { name := "dateAdded", keyPath := ["dateAdded"], unique := false },
       { name := "year_month", keyPath := ["year", "month"], unique := false },
       { name := "year", keyPath := ["year"], unique := false }] }

/-- The `onupgradeneeded` handler of `openCostsDB`: when the `costs`
store is absent it is created with all four indexes; when it is already
present (whatever its indexes) nothing at all is done. -/
def upgradeCosts (db : IDBSchema) : IDBSchema :=
  if containsStore db "costs" then db
  else { stores := db.stores ++ [("costs", fullCostsStore)] }

/-- The schema produced by the earlier revision of the library (the
vanilla `idb.js` in this repository): the `costs` store with only the
`category`, `dateAdded` and `year_month` indexes — no `year` index. -/
def legacySchema : IDBSchema :=
  { stores :=
      [("costs",
        { keyPath := "id"
          autoIncrement := true
          indexes :=
            [{ name := "category", keyPath := ["category"], unique := false },
             { name := "dateAdded", keyPath := ["dateAdded"], unique := false },
             { name := "year_month", keyPath := ["year", "month"],
               unique := false }] })] }

/-- The index names of the `costs` store of a schema. -/
def costsIndexNames (db : IDBSchema) : List String :=
  match lookupStore db.stores "costs" with
  | some s => s.indexes.map (fun i => i.name)
  | none => []

/-- Spec-level helper: append an element unless it is already present. -/
def stepFirstSeen (acc : List String) (c : String) : List String :=
  if c ∈ acc then acc else acc ++ [c]

/-- Spec-level definition (order characterization): the distinct
elements of a list in first-seen order. -/
def firstSeenOrder (l : List String) : List String :=
  l.foldl stepFirstSeen []

/-- The rational a successful conversion denotes (0 when the conversion
is non-finite; only used under hypotheses ruling that out). -/
def convQ (currency : String) (rates : RateTable) (r : CostRecord) : ℚ :=
  (convertCurrency r.sum r.currency currency rates).getD 0

/-- Sample clock reading used to exercise the model. -/
def sampleDate1 : DateStamp :=
  { timestamp := 0, year := 2025, month := 5, day := 3 }

/-- A later sample clock reading. -/
def sampleDate2 : DateStamp :=
  { timestamp := 1, year := 2025, month := 5, day := 4 }

/-- A sample stored record (100 USD, category Food). -/
def sampleRecord1 : CostRecord :=
  { id := 1, sum := 100, currency := "USD", category := "Food",
    description := "lunch", dateAdded := sampleDate1,
    year := 2025, month := 5, day := 3 }

/-- A second sample stored record (50 GBP, category Food). -/
def sampleRecord2 : CostRecord :=
  { id := 2, sum := 50, currency := "GBP", category := "Food",
    description := "tea", dateAdded := sampleDate2,
    year := 2025, month := 5, day := 4 }

/-- An opened store holding the two sample records. -/
def sampleDB : DBState :=
  { opened := true, nextId := 3, records := [sampleRecord1, sampleRecord2] }

/-- A stored record whose caller-supplied category is the numeric
string "7" (the store does not validate categories). -/
def sampleRecordNum : CostRecord :=
  { id := 2, sum := 50, currency := "USD", category := "7",
    description := "misc", dateAdded := sampleDate2,
    year := 2025, month := 5, day := 4 }

/-- An opened store whose matched records carry categories "Food" then
"7", in that scan order. -/
def sampleDBNum : DBState :=
  { opened := true, nextId := 3, records := [sampleRecord1, sampleRecordNum] }

/-- An opened store with no records yet. -/
def emptyOpenDB : DBState :=
  { opened := true, nextId := 1, records := [] }

/-- A database with no object stores at all (first creation). -/
def emptySchema : IDBSchema := { stores := [] }

/-! ### Unfolding lemmas for the opened-store paths -/

theorem getReport_opened (st : DBState) (y : Int) (m : Nat) (c : String)
    (f : FetchResult) (hop : st.opened = true) :
    getReport st y m c f = Except.ok
      { year := y
        month := m
        costs := (queryYearMonth st y m).map displayOf
        total :=
          { currency := c
            total := (queryYearMonth st y m).foldl
              (fun acc r =>
                jadd acc (convertCurrency r.sum r.currency c
                  (fetchExchangeRates f)))
              (some 0) } } := by
  simp [getReport, hop, List.foldl_map, displayOf]

theorem getCostsByCategory_opened (st : DBState) (y : Int) (m : Nat)
    (c : String) (f : FetchResult) (hop : st.opened = true) :
    getCostsByCategory st y m c f = Except.ok
      ((keyOrderJS (((queryYearMonth st y m).foldl
          (stepCategory c (fetchExchangeRates f)) []).map Prod.fst)).map
        (fun k => { name := k, value :=
          (lookupAcc ((queryYearMonth st y m).foldl
            (stepCategory c (fetchExchangeRates f)) []) k).getD none })) := by
  simp [getCostsByCategory, hop]

theorem getYearlyReport_opened (st : DBState) (y : Int) (c : String)
    (f : FetchResult) (hop : st.opened = true) :
    getYearlyReport st y c f = Except.ok
      (List.zipWith (fun total name => { month := name, total := total })
        ((queryYear st y).foldl (bumpMonth c (fetchExchangeRates f))
          (List.replicate 12 (some (0 : ℚ))))
        monthNames) := by
  simp [getYearlyReport, hop]

/-! ### C7, C8: the currency converter -/

/-- C7: for every amount, currency code and rate table — including
tables with missing keys, such as the empty one — conversion of a
currency to itself is the identity and consults no rate. -/
theorem C7_convert_identity (amount : ℚ) (c : String) (rates : RateTable) :
    convertCurrency amount c c rates = some amount := by
  simp [convertCurrency]

/-- C8: for distinct codes whose entries exist in the table (and a
nonzero source rate, the only case denoting a finite number),
conversion pivots through USD: `amount / rates[from] * rates[to]`. -/
theorem C8_convert_pivot (amount : ℚ) (f t : String) (rates : RateTable)
    (rf rt : ℚ) (hne : f ≠ t) (hf : lookupRate rates f = some rf)
    (hf0 : rf ≠ 0) (ht : lookupRate rates t = some rt) :
    convertCurrency amount f t rates = some (amount / rf * rt) := by
  simp [convertCurrency, hne, hf, ht, jdiv, jmul, hf0]

/-- Witness for C8 at the spec's own example: 100 USD to GBP under the
fallback table is 60. -/
theorem C8_convert_pivot_witness :
    convertCurrency 100 "USD" "GBP" fallbackRates = some 60 := by
  have h := C8_convert_pivot 100 "USD" "GBP" fallbackRates 1 (3/5)
    (by decide) rfl (by norm_num) rfl
  rw [h]
  norm_num

/-! ### C4: fetch fallback -/

/-- C4: `fetchExchangeRates` is a total function into rate tables (it
never rejects); on every failing outcome it yields exactly the
hardcoded fallback table, and all three report operations still
resolve successfully on an opened store whatever the fetch outcome. -/
theorem C4_fetch_fallback :
    (∀ f, fetchFailed f = true → fetchExchangeRates f = fallbackRates) ∧
      ∀ (st : DBState) (y : Int) (m : Nat) (c : String) (f : FetchResult),
        st.opened = true →
          (∃ r, getReport st y m c f = Except.ok r) ∧
            (∃ l, getCostsByCategory st y m c f = Except.ok l) ∧
              ∃ l, getYearlyReport st y c f = Except.ok l := by
  constructor
  · intro f hf
    cases f with
    | networkError => rfl
    | response status body =>
      by_cases hs : status = 200
      · subst hs
        cases body with
        | none => rfl
        | some t => simp [fetchFailed] at hf
      · simp [fetchExchangeRates, hs]
  · intro st y m c f hop
    exact ⟨⟨_, getReport_opened st y m c f hop⟩,
      ⟨_, getCostsByCategory_opened st y m c f hop⟩,
      ⟨_, getYearlyReport_opened st y c f hop⟩⟩

/-- Witness for C4: a network error yields the fallback table and the
monthly report on the sample store still resolves. -/
theorem C4_fetch_fallback_witness :
    (fetchFailed FetchResult.networkError = true ∧
        fetchExchangeRates FetchResult.networkError = fallbackRates) ∧
      sampleDB.opened = true ∧
        ∃ r, getReport sampleDB 2025 5 "USD" FetchResult.networkError =
          Except.ok r :=
  ⟨⟨by decide, C4_fetch_fallback.1 FetchResult.networkError (by decide)⟩,
    ⟨rfl, (C4_fetch_fallback.2 sampleDB 2025 5 "USD"
      FetchResult.networkError rfl).1⟩⟩

/-! ### C5: operations on an unopened store -/

/-- C5: with the store unopened, each of the four operations rejects
with `NotOpenError` ("Database not opened") and leaves the state
untouched: `addCost` returns the state unchanged, and the three
queries are read-only by construction. -/
theorem C5_unopened_rejects (st : DBState) (cost : CostInput)
    (now : DateStamp) (y : Int) (m : Nat) (c : String) (f : FetchResult)
    (h : st.opened = false) :
    addCost st cost now = (Except.error DBError.notOpen, st) ∧
      getReport st y m c f = Except.error DBError.notOpen ∧
        getCostsByCategory st y m c f = Except.error DBError.notOpen ∧
          getYearlyReport st y c f = Except.error DBError.notOpen := by
  refine ⟨?_, ?_, ?_, ?_⟩ <;>
    simp [addCost, getReport, getCostsByCategory, getYearlyReport, h]

/-- Witness for C5 at the initial state. -/
theorem C5_unopened_rejects_witness :
    initialDB.opened = false ∧
      addCost initialDB ⟨1, "USD", "Food", ""⟩ sampleDate1 =
        (Except.error DBError.notOpen, initialDB) :=
  ⟨rfl, (C5_unopened_rejects initialDB ⟨1, "USD", "Food", ""⟩ sampleDate1
    2025 5 "USD" FetchResult.networkError rfl).1⟩

/-! ### C6: addCost round-trip -/

/-- C6: on an opened, well-formed store, `addCost` resolves with exactly
the four input fields, appends one record stamped with the clock
reading and its components under the fresh id `st.nextId` (distinct
from every stored id), and preserves well-formedness. -/
theorem C6_addCost_roundtrip (st : DBState) (cost : CostInput)
    (now : DateStamp) (hop : st.opened = true) (hwf : WellFormed st) :
    (addCost st cost now).1 =
        Except.ok ⟨cost.sum, cost.currency, cost.category, cost.description⟩ ∧
      (addCost st cost now).2 =
          { opened := st.opened
            nextId := st.nextId + 1
            records := st.records ++
              [{ id := st.nextId, sum := cost.sum, currency := cost.currency,
                 category := cost.category, description := cost.description,
                 dateAdded := now, year := now.year, month := now.month,
                 day := now.day }] } ∧
        (∀ r ∈ st.records, r.id ≠ st.nextId) ∧
          WellFormed (addCost st cost now).2 := by
  have hids : ∀ r ∈ st.records, r.id < st.nextId := hwf.2
  refine ⟨by simp [addCost, hop], by simp [addCost, hop], ?_, ?_⟩
  · intro r hr
    exact Nat.ne_of_lt (hids r hr)
  · simp only [addCost, hop, if_true]
    constructor
    · simp only [List.map_append, List.map_cons, List.map_nil,
        List.pairwise_append]
      refine ⟨hwf.1, List.pairwise_singleton _ _, ?_⟩
      intro a ha b hb
      simp only [List.mem_map] at ha
      obtain ⟨r, hr, rfl⟩ := ha
      simp only [List.mem_singleton] at hb
      subst hb
      exact hids r hr
    · intro r hr
      simp only [List.mem_append, List.mem_singleton] at hr
      rcases hr with hr | rfl
      · exact Nat.lt_succ_of_lt (hids r hr)
      · exact Nat.lt_succ_self _

/-- Witness for C6 at the sample store. -/
theorem C6_addCost_roundtrip_witness :
    (sampleDB.opened = true ∧ WellFormed sampleDB) ∧
      (addCost sampleDB ⟨7, "ILS", "Bus", "ride"⟩ sampleDate2).1 =
        Except.ok ⟨7, "ILS", "Bus", "ride"⟩ :=
  ⟨⟨rfl, by constructor <;> decide⟩,
    (C6_addCost_roundtrip sampleDB ⟨7, "ILS", "Bus", "ride"⟩ sampleDate2
      rfl (by constructor <;> decide)).1⟩

/-! ### C10: the itemized list does not depend on currency or rates -/

/-- C10: two `getReport` calls on the same store, year and month that
differ only in the target currency and in the fetch outcome both
resolve, and with identical `costs` arrays (same elements, same
order); only `total` can differ. -/
theorem C10_costs_noninterference (st : DBState) (y : Int) (m : Nat)
    (c1 c2 : String) (f1 f2 : FetchResult) (hop : st.opened = true) :
    ∃ r1 r2, getReport st y m c1 f1 = Except.ok r1 ∧
      getReport st y m c2 f2 = Except.ok r2 ∧
        r1.costs = r2.costs ∧ r1.year = r2.year ∧ r1.month = r2.month :=
  ⟨_, _, getReport_opened st y m c1 f1 hop,
    getReport_opened st y m c2 f2 hop, rfl, rfl, rfl⟩

/-- Witness for C10: the sample store reports the same itemized list
under USD with live rates and under ILS with failed rates. -/
theorem C10_costs_noninterference_witness :
    sampleDB.opened = true ∧
      ∃ r1 r2,
        getReport sampleDB 2025 5 "USD"
            (FetchResult.response 200 (some [("USD", 1), ("GBP", 1/2)])) =
          Except.ok r1 ∧
        getReport sampleDB 2025 5 "ILS" FetchResult.networkError =
          Except.ok r2 ∧
        r1.costs = r2.costs ∧ r1.year = r2.year ∧ r1.month = r2.month :=
  ⟨rfl, C10_costs_noninterference sampleDB 2025 5 "USD" "ILS"
    (FetchResult.response 200 (some [("USD", 1), ("GBP", 1/2)]))
    FetchResult.networkError rfl⟩

/-! ### C1: the monthly report -/

/-- C1: on an opened, well-formed store, `getReport` resolves with one
display record per matched stored record — carrying the stored sum and
currency unconverted and the day under the nested `Date` field — in
list order, which is id order (the matched ids are strictly
increasing); `total.total` is the reduce of the converted amounts
starting from 0. -/
theorem C1_getReport_month (st : DBState) (y : Int) (m : Nat) (c : String)
    (f : FetchResult) (hop : st.opened = true) (hwf : WellFormed st) :
    getReport st y m c f = Except.ok
      { year := y
        month := m
        costs := (queryYearMonth st y m).map displayOf
        total :=
          { currency := c
            total := (queryYearMonth st y m).foldl
              (fun acc r =>
                jadd acc (convertCurrency r.sum r.currency c
                  (fetchExchangeRates f)))
              (some 0) } } ∧
      ((queryYearMonth st y m).map displayOf).length =
          (queryYearMonth st y m).length ∧
        ((queryYearMonth st y m).map (fun r => r.id)).Pairwise (· < ·) := by
  refine ⟨getReport_opened st y m c f hop, by simp, ?_⟩
  have hsub : List.Sublist ((queryYearMonth st y m).map (fun r => r.id))
      (st.records.map (fun r => r.id)) :=
    (List.filter_sublist _).map _
  exact hwf.1.sublist hsub

/-- Witness for C1 at the sample store: both stored May 2025 records are
itemized, in id order. -/
theorem C1_getReport_month_witness :
    (sampleDB.opened = true ∧ WellFormed sampleDB) ∧
      getReport sampleDB 2025 5 "USD" FetchResult.networkError = Except.ok
        { year := 2025
          month := 5
          costs := (queryYearMonth sampleDB 2025 5).map displayOf
          total :=
            { currency := "USD"
              total := (queryYearMonth sampleDB 2025 5).foldl
                (fun acc r =>
                  jadd acc (convertCurrency r.sum r.currency "USD"
                    (fetchExchangeRates FetchResult.networkError)))
                (some 0) } } ∧
        ((queryYearMonth sampleDB 2025 5).map displayOf).length =
            (queryYearMonth sampleDB 2025 5).length ∧
          ((queryYearMonth sampleDB 2025 5).map (fun r => r.id)).Pairwise
            (· < ·) :=
  ⟨⟨rfl, by constructor <;> decide⟩,
    C1_getReport_month sampleDB 2025 5 "USD" FetchResult.networkError rfl
      (by constructor <;> decide)⟩

/-! ### List helpers for the yearly scatter -/

theorem getD_set_self {α : Type} (l : List α) (i : Nat) (v d : α)
    (h : i < l.length) : (l.set i v).getD i d = v := by
  induction l generalizing i with
  | nil => simp at h
  | cons a t ih =>
    cases i with
    | zero => rfl
    | succ j => simpa using ih j (by simpa using h)

theorem getD_set_ne {α : Type} (l : List α) (i j : Nat) (v d : α)
    (h : i ≠ j) : (l.set i v).getD j d = l.getD j d := by
  induction l generalizing i j with
  | nil => rfl
  | cons a t ih =>
    cases i with
    | zero =>
      cases j with
      | zero => exact absurd rfl h
      | succ k => rfl
    | succ i2 =>
      cases j with
      | zero => rfl
      | succ k =>
        simpa using ih i2 k (fun hh => h (by rw [hh]))

theorem getD_replicate {α : Type} (n : Nat) (x d : α) :
    ∀ k, k < n → (List.replicate n x).getD k d = x := by
  induction n with
  | zero => intro k h; simp at h
  | succ n2 ih =>
    intro k h
    cases k with
    | zero => rfl
    | succ k2 =>
      have h2 : k2 < n2 := by omega
      simpa [List.replicate_succ] using ih k2 h2

theorem length_foldl_bumpMonth (c : String) (rates : RateTable)
    (l : List CostRecord) : ∀ init : List (Option ℚ),
    (l.foldl (bumpMonth c rates) init).length = init.length := by
  induction l with
  | nil => intro init; rfl
  | cons r t ih =>
    intro init
    rw [List.foldl_cons, ih]
    simp [bumpMonth]

theorem foldl_bumpMonth_getD (c : String) (rates : RateTable)
    (l : List CostRecord) : ∀ init : List (Option ℚ),
    (∀ r ∈ l, 1 ≤ r.month ∧ r.month ≤ init.length) →
    ∀ i, i < init.length →
    (l.foldl (bumpMonth c rates) init).getD i none =
      (l.filter (fun r => r.month = i + 1)).foldl
        (fun acc r => jadd acc (convertCurrency r.sum r.currency c rates))
        (init.getD i none) := by
  induction l with
  | nil => intro init _ i _; rfl
  | cons r t ih =>
    intro init hm i hi
    have hr := hm r (List.mem_cons_self r t)
    have hlen : (bumpMonth c rates init r).length = init.length := by
      simp [bumpMonth]
    rw [List.foldl_cons]
    have ht : ∀ r2 ∈ t, 1 ≤ r2.month ∧ r2.month ≤
        (bumpMonth c rates init r).length := by
      intro r2 hr2
      rw [hlen]
      exact hm r2 (List.mem_cons_of_mem r hr2)
    have hstep := ih (bumpMonth c rates init r) ht i (by rw [hlen]; exact hi)
    rw [hstep]
    by_cases hcase : r.month = i + 1
    · have hidx : r.month - 1 = i := by omega
      have hget : (bumpMonth c rates init r).getD i none =
          jadd (init.getD i none)
            (convertCurrency r.sum r.currency c rates) := by
        rw [bumpMonth, hidx]
        exact getD_set_self init i _ none hi
      rw [hget]
      simp [List.filter_cons, hcase]
    · have hidx : r.month - 1 ≠ i := by omega
      have hget : (bumpMonth c rates init r).getD i none =
          init.getD i none := by
        rw [bumpMonth]
        exact getD_set_ne init (r.month - 1) i _ none hidx
      rw [hget]
      simp [List.filter_cons, hcase]

theorem map_month_zipWith : ∀ (ts : List (Option ℚ)) (ns : List String),
    ts.length = ns.length →
    (List.zipWith (fun total name =>
        ({ month := name, total := total } : MonthEntry)) ts ns).map
      (fun e => e.month) = ns := by
  intro ts
  induction ts with
  | nil =>
    intro ns h
    cases ns with
    | nil => rfl
    | cons n ns2 => simp at h
  | cons a t ih =>
    intro ns h
    cases ns with
    | nil => simp at h
    | cons n ns2 => simp [ih ns2 (by simpa using h)]

theorem getD_zipWith_total : ∀ (ts : List (Option ℚ)) (ns : List String)
    (k : Nat), k < ts.length → k < ns.length →
    ((List.zipWith (fun total name =>
        ({ month := name, total := total } : MonthEntry)) ts ns).getD k
      { month := "", total := none }).total = ts.getD k none := by
  intro ts
  induction ts with
  | nil => intro ns k h _; simp at h
  | cons a t ih =>
    intro ns k ht hn
    cases ns with
    | nil => simp at hn
    | cons n ns2 =>
      cases k with
      | zero => rfl
      | succ k2 =>
        simpa using ih ns2 k2 (by simpa using ht) (by simpa using hn)

/-! ### C2: the yearly report -/

/-- C2: on an opened store whose records carry calendar months, the
yearly report always has exactly 12 entries labeled Jan..Dec in order;
entry k accumulates the converted amounts of the records of that year
with month k+1, and an empty year yields the all-zero 12-entry array. -/
theorem C2_yearly_report (st : DBState) (y : Int) (c : String)
    (f : FetchResult) (hop : st.opened = true) (hvm : ValidMonths st) :
    ∃ l, getYearlyReport st y c f = Except.ok l ∧
      l.length = 12 ∧
        l.map (fun e => e.month) = monthNames ∧
          (∀ k, k < 12 →
            (l.getD k { month := "", total := none }).total =
              ((queryYear st y).filter (fun r => r.month = k + 1)).foldl
                (fun acc r =>
                  jadd acc (convertCurrency r.sum r.currency c
                    (fetchExchangeRates f)))
                (some 0)) ∧
            (queryYear st y = [] →
              l = monthNames.map (fun n => { month := n, total := some 0 })) := by
  have hvq : ∀ r ∈ queryYear st y, 1 ≤ r.month ∧ r.month ≤ 12 := by
    intro r hr
    exact hvm r (List.mem_of_mem_filter hr)
  have hlen : ((queryYear st y).foldl
      (bumpMonth c (fetchExchangeRates f))
      (List.replicate 12 (some (0 : ℚ)))).length = 12 := by
    rw [length_foldl_bumpMonth]
    rfl
  refine ⟨_, getYearlyReport_opened st y c f hop, ?_, ?_, ?_, ?_⟩
  · rw [List.length_zipWith, hlen]
    rfl
  · exact map_month_zipWith _ monthNames (by rw [hlen]; rfl)
  · intro k hk
    rw [getD_zipWith_total _ monthNames k (by rw [hlen]; exact hk)
      (by simpa [monthNames] using hk)]
    rw [foldl_bumpMonth_getD c (fetchExchangeRates f) (queryYear st y)
      (List.replicate 12 (some (0 : ℚ)))
      (by simpa using hvq) k (by simpa using hk)]
    rw [getD_replicate 12 (some (0 : ℚ)) none k hk]
  · intro hq
    rw [hq]
    rfl

/-- Witness for C2 at the sample store: the two May 2025 records land in
the fifth slot and all twelve labels appear in order. -/
theorem C2_yearly_report_witness :
    (sampleDB.opened = true ∧ ValidMonths sampleDB) ∧
      ∃ l, getYearlyReport sampleDB 2025 "USD" FetchResult.networkError =
          Except.ok l ∧
        l.length = 12 ∧
          l.map (fun e => e.month) = monthNames ∧
            (∀ k, k < 12 →
              (l.getD k { month := "", total := none }).total =
                ((queryYear sampleDB 2025).filter
                    (fun r => r.month = k + 1)).foldl
                  (fun acc r =>
                    jadd acc (convertCurrency r.sum r.currency "USD"
                      (fetchExchangeRates FetchResult.networkError)))
                  (some 0)) ∧
              (queryYear sampleDB 2025 = [] →
                l = monthNames.map (fun n => { month := n, total := some 0 })) :=
  ⟨⟨rfl, by unfold ValidMonths; decide⟩,
    C2_yearly_report sampleDB 2025 "USD" FetchResult.networkError rfl
      (by unfold ValidMonths; decide)⟩

/-! ### C9: schema upgrade -/

theorem lookupStore_append_of_not_contains
    (l : List (String × StoreDef)) (name : String) (s : StoreDef) :
    l.any (fun p => p.1 = name) = false →
    lookupStore (l ++ [(name, s)]) name = some s := by
  induction l with
  | nil => intro _; simp [lookupStore]
  | cons a t ih =>
    obtain ⟨a1, a2⟩ := a
    intro h
    simp only [List.any_cons, Bool.or_eq_false_iff] at h
    have h1 : ¬(a1 = name) := by simpa using h.1
    simp only [List.cons_append, lookupStore, if_neg h1]
    exact ih h.2

/-- Counterexample to C9 as stated: upgrading from the earlier schema
revision shipped in this repository (the vanilla idb.js, whose `costs`
store has no `year` index) changes nothing, so the opened store lacks
the `year` index. -/
theorem C9_upgrade_counterexample :
    containsStore legacySchema "costs" = true ∧
      upgradeCosts legacySchema = legacySchema ∧
        "year" ∉ costsIndexNames (upgradeCosts legacySchema) := by
  refine ⟨by decide, by decide, by decide⟩

/-- C9 (amended): the upgrade handler is guarded only by the existence
of the `costs` collection. On first creation it yields the collection
keyed by the auto-incrementing `id` with all four indexes; when the
collection already exists — whatever indexes it has — the upgrade
changes nothing, so repeated opens never duplicate schema (the upgrade
is idempotent), but indexes missing from an earlier schema are not
added. -/
theorem C9_upgrade_amended (db : IDBSchema) :
    (containsStore db "costs" = false →
      lookupStore (upgradeCosts db).stores "costs" = some fullCostsStore) ∧
      (containsStore db "costs" = true → upgradeCosts db = db) ∧
        upgradeCosts (upgradeCosts db) = upgradeCosts db := by
  refine ⟨?_, ?_, ?_⟩
  · intro h
    simp only [upgradeCosts, h, Bool.false_eq_true, if_false]
    exact lookupStore_append_of_not_contains db.stores "costs"
      fullCostsStore (by simpa [containsStore] using h)
  · intro h
    simp [upgradeCosts, h]
  · by_cases h : containsStore db "costs" = true
    · simp [upgradeCosts, h]
    · have hf : containsStore db "costs" = false := by
        simpa using h
      have h2 : containsStore (upgradeCosts db) "costs" = true := by
        have hf2 : (db.stores.any fun p => decide (p.1 = "costs")) = false := by
          simpa [containsStore] using hf
        simp [upgradeCosts, containsStore, hf2, List.any_append]
      conv_lhs => rw [upgradeCosts]
      simp [h2]

/-- Witness for the amended C9 at first creation. -/
theorem C9_upgrade_amended_witness :
    containsStore emptySchema "costs" = false ∧
      lookupStore (upgradeCosts emptySchema).stores "costs" =
        some fullCostsStore :=
  ⟨by decide, (C9_upgrade_amended emptySchema).1 (by decide)⟩

/-! ### C3: grouping by category -/

theorem mem_stepFirstSeen (acc : List String) (x c : String) :
    c ∈ stepFirstSeen acc x ↔ c ∈ acc ∨ c = x := by
  unfold stepFirstSeen
  by_cases hx : x ∈ acc
  · simp only [if_pos hx]
    constructor
    · exact fun h => Or.inl h
    · rintro (h | rfl)
      · exact h
      · exact hx
  · simp [if_neg hx]

theorem mem_foldl_stepFirstSeen (l : List String) :
    ∀ (acc : List String) (c : String),
      c ∈ l.foldl stepFirstSeen acc ↔ c ∈ acc ∨ c ∈ l := by
  induction l with
  | nil => intro acc c; simp
  | cons x t ih =>
    intro acc c
    rw [List.foldl_cons, ih, mem_stepFirstSeen]
    simp only [List.mem_cons]
    tauto

theorem nodup_foldl_stepFirstSeen (l : List String) :
    ∀ acc : List String, acc.Nodup → (l.foldl stepFirstSeen acc).Nodup := by
  induction l with
  | nil => intro acc h; exact h
  | cons x t ih =>
    intro acc h
    rw [List.foldl_cons]
    apply ih
    unfold stepFirstSeen
    by_cases hx : x ∈ acc
    · simpa [hx] using h
    · simp [hx, List.nodup_append, h]

theorem mem_firstSeenOrder (l : List String) (c : String) :
    c ∈ firstSeenOrder l ↔ c ∈ l := by
  unfold firstSeenOrder
  rw [mem_foldl_stepFirstSeen]
  simp

theorem nodup_firstSeenOrder (l : List String) : (firstSeenOrder l).Nodup :=
  nodup_foldl_stepFirstSeen l [] List.nodup_nil

theorem firstSeenOrder_concat (l : List String) (c : String) :
    firstSeenOrder (l ++ [c]) = stepFirstSeen (firstSeenOrder l) c := by
  unfold firstSeenOrder
  rw [List.foldl_append]
  rfl

theorem lookupAcc_some_mem (acc : List (String × Option ℚ)) (cat : String)
    (e : Option ℚ) : lookupAcc acc cat = some e → (cat, e) ∈ acc := by
  induction acc with
  | nil => intro h; simp [lookupAcc] at h
  | cons a t ih =>
    obtain ⟨c0, v0⟩ := a
    intro h
    by_cases hc : c0 = cat
    · subst hc
      rw [lookupAcc, if_pos rfl] at h
      cases Option.some_inj.mp h
      exact List.mem_cons_self _ _
    · simp only [lookupAcc, if_neg hc] at h
      exact List.mem_cons_of_mem _ (ih h)

theorem lookupAcc_none_not_mem (acc : List (String × Option ℚ))
    (cat : String) : lookupAcc acc cat = none →
    cat ∉ acc.map Prod.fst := by
  induction acc with
  | nil => intro _ h; simp at h
  | cons a t ih =>
    obtain ⟨c0, v0⟩ := a
    intro h hmem
    by_cases hc : c0 = cat
    · simp [lookupAcc, hc] at h
    · simp only [lookupAcc, if_neg hc] at h
      rw [List.map_cons] at hmem
      rcases List.mem_cons.mp hmem with h1 | h1
      · exact hc h1.symm
      · exact ih h h1

theorem setAcc_of_not_mem (acc : List (String × Option ℚ)) (cat : String)
    (v : Option ℚ) : cat ∉ acc.map Prod.fst →
    setAcc acc cat v = acc ++ [(cat, v)] := by
  induction acc with
  | nil => intro _; rfl
  | cons a t ih =>
    obtain ⟨c0, v0⟩ := a
    intro h
    have hc : ¬(c0 = cat) := by
      intro hh
      exact h (by simp [hh])
    simp only [setAcc, if_neg hc, List.cons_append]
    rw [ih (by intro hh; exact h (by simp [hh]))]

theorem setAcc_map_fst_of_mem (acc : List (String × Option ℚ))
    (cat : String) (v : Option ℚ) : cat ∈ acc.map Prod.fst →
    (setAcc acc cat v).map Prod.fst = acc.map Prod.fst := by
  induction acc with
  | nil => intro h; simp at h
  | cons a t ih =>
    obtain ⟨c0, v0⟩ := a
    intro h
    by_cases hc : c0 = cat
    · simp [setAcc, hc]
    · have ht : cat ∈ t.map Prod.fst := by
        rw [List.map_cons] at h
        rcases List.mem_cons.mp h with h1 | h1
        · exact absurd h1.symm hc
        · exact h1
      simp [setAcc, hc, ih ht]

theorem mem_setAcc (acc : List (String × Option ℚ)) (cat : String)
    (v : Option ℚ) : (acc.map Prod.fst).Nodup →
    ∀ pr ∈ setAcc acc cat v, pr = (cat, v) ∨ (pr ∈ acc ∧ pr.1 ≠ cat) := by
  induction acc with
  | nil =>
    intro _ pr hpr
    simp only [setAcc, List.mem_singleton] at hpr
    exact Or.inl hpr
  | cons a t ih =>
    obtain ⟨c0, v0⟩ := a
    intro hnd pr hpr
    have hnd2 : c0 ∉ t.map Prod.fst ∧ (t.map Prod.fst).Nodup :=
      List.nodup_cons.mp (by simpa using hnd)
    by_cases hc : c0 = cat
    · subst hc
      simp only [setAcc, if_pos rfl] at hpr
      rcases List.mem_cons.mp hpr with rfl | hpr2
      · exact Or.inl rfl
      · right
        refine ⟨List.mem_cons_of_mem _ hpr2, ?_⟩
        intro hpc
        exact hnd2.1 (hpc ▸ List.mem_map_of_mem Prod.fst hpr2)
    · simp only [setAcc, if_neg hc] at hpr
      rcases List.mem_cons.mp hpr with rfl | hpr2
      · exact Or.inr ⟨List.mem_cons_self _ _, fun hh => hc hh⟩
      · rcases ih hnd2.2 pr hpr2 with h1 | ⟨h1, h2⟩
        · exact Or.inl h1
        · exact Or.inr ⟨List.mem_cons_of_mem _ h1, h2⟩

theorem filter_category_eq_nil (p : List CostRecord) (cat : String)
    (h : cat ∉ p.map (fun r => r.category)) :
    p.filter (fun r => r.category = cat) = [] := by
  induction p with
  | nil => rfl
  | cons a t ih =>
    have h1 : ¬(a.category = cat) := by
      intro hh
      exact h (by simp [hh])
    have h2 : cat ∉ t.map (fun r => r.category) := by
      intro hh
      exact h (by simp [hh])
    simp [List.filter_cons, h1, ih h2]

theorem groupFold (c : String) (rates : RateTable) :
    ∀ (l p : List CostRecord) (acc : List (String × Option ℚ)),
      (∀ r ∈ l, (convertCurrency r.sum r.currency c rates).isSome = true) →
      acc.map Prod.fst = firstSeenOrder (p.map (fun r => r.category)) →
      (∀ pr ∈ acc, pr.2 = some
        (((p.filter (fun r => r.category = pr.1)).map (convQ c rates)).sum)) →
      (l.foldl (stepCategory c rates) acc).map Prod.fst =
          firstSeenOrder ((p ++ l).map (fun r => r.category)) ∧
        ∀ pr ∈ l.foldl (stepCategory c rates) acc, pr.2 = some
          ((((p ++ l).filter (fun r => r.category = pr.1)).map
            (convQ c rates)).sum) := by
  intro l
  induction l with
  | nil =>
    intro p acc _ hkeys hvals
    constructor
    · simpa using hkeys
    · simpa using hvals
  | cons r t ih =>
    intro p acc hconv hkeys hvals
    obtain ⟨q, hq⟩ : ∃ q, convertCurrency r.sum r.currency c rates = some q :=
      Option.isSome_iff_exists.mp (hconv r (List.mem_cons_self r t))
    have hqQ : convQ c rates r = q := by simp [convQ, hq]
    have hnd : (acc.map Prod.fst).Nodup := by
      rw [hkeys]
      exact nodup_firstSeenOrder _
    have hmain : (stepCategory c rates acc r).map Prod.fst =
          firstSeenOrder ((p ++ [r]).map (fun r2 => r2.category)) ∧
        ∀ pr ∈ stepCategory c rates acc r, pr.2 = some
          ((((p ++ [r]).filter (fun r2 => r2.category = pr.1)).map
            (convQ c rates)).sum) := by
      cases hlook : lookupAcc acc r.category with
      | none =>
        have hnotmem : r.category ∉ acc.map Prod.fst :=
          lookupAcc_none_not_mem acc r.category hlook
        have hnotp : r.category ∉ p.map (fun r2 => r2.category) := by
          intro hh
          exact hnotmem (by rw [hkeys, mem_firstSeenOrder]; exact hh)
        have hstep : stepCategory c rates acc r =
            acc ++ [(r.category, some q)] := by
          simp only [stepCategory, accumCategory, hlook, hq]
          exact setAcc_of_not_mem acc r.category (some q) hnotmem
        constructor
        · rw [hstep]
          simp only [List.map_append, List.map_cons, List.map_nil]
          rw [hkeys, firstSeenOrder_concat]
          unfold stepFirstSeen
          have hno : r.category ∉
              firstSeenOrder (p.map (fun r2 => r2.category)) := by
            rw [mem_firstSeenOrder]
            exact hnotp
          rw [if_neg hno]
        · intro pr hpr
          rw [hstep] at hpr
          rcases List.mem_append.mp hpr with h1 | h1
          · have hfst : pr.1 ∈ acc.map Prod.fst :=
              List.mem_map_of_mem Prod.fst h1
            have hne : ¬(r.category = pr.1) := fun hh =>
              hnotmem (hh ▸ hfst)
            have hfil : (p ++ [r]).filter (fun r2 => r2.category = pr.1) =
                p.filter (fun r2 => r2.category = pr.1) := by
              simp [List.filter_append, List.filter_singleton, hne]
            rw [hfil]
            exact hvals pr h1
          · rw [List.mem_singleton] at h1
            subst h1
            simp [List.filter_append, List.filter_singleton,
              filter_category_eq_nil p r.category hnotp, hqQ]
      | some e =>
        have hmem : (r.category, e) ∈ acc :=
          lookupAcc_some_mem acc r.category e hlook
        have hkeymem : r.category ∈ acc.map Prod.fst :=
          List.mem_map_of_mem Prod.fst hmem
        have hse : e = some
            (((p.filter (fun r2 => r2.category = r.category)).map
              (convQ c rates)).sum) := by
          simpa using hvals (r.category, e) hmem
        have hstep : stepCategory c rates acc r =
            setAcc acc r.category (some
              ((((p.filter (fun r2 => r2.category = r.category)).map
                (convQ c rates)).sum) + q)) := by
          simp only [stepCategory, accumCategory, hlook, hq, hse]
          by_cases hs0 : ((p.filter (fun r2 => r2.category = r.category)).map
              (convQ c rates)).sum = 0
          · rw [hs0]
            simp [jsTruthy, jadd, zero_add]
          · simp [jsTruthy, hs0, jadd]
        constructor
        · rw [hstep, setAcc_map_fst_of_mem acc _ _ hkeymem, hkeys]
          simp only [List.map_append, List.map_cons, List.map_nil]
          rw [firstSeenOrder_concat]
          unfold stepFirstSeen
          have hyes : r.category ∈
              firstSeenOrder (p.map (fun r2 => r2.category)) := by
            rw [← hkeys]
            exact hkeymem
          rw [if_pos hyes]
        · intro pr hpr
          rw [hstep] at hpr
          rcases mem_setAcc acc r.category _ hnd pr hpr with h1 | ⟨h1, h2⟩
          · subst h1
            simp [List.filter_append, List.filter_singleton, List.map_append,
              List.sum_append, hqQ]
          · have hne : ¬(r.category = pr.1) := fun hh => h2 hh.symm
            have hfil : (p ++ [r]).filter (fun r2 => r2.category = pr.1) =
                p.filter (fun r2 => r2.category = pr.1) := by
              simp [List.filter_append, List.filter_singleton, hne]
            rw [hfil]
            exact hvals pr h1
    have hrest := ih (p ++ [r]) (stepCategory c rates acc r)
      (fun r2 h2 => hconv r2 (List.mem_cons_of_mem r h2)) hmain.1 hmain.2
    rw [List.foldl_cons]
    constructor
    · have := hrest.1
      simpa using this
    · intro pr hpr
      have := hrest.2 pr hpr
      simpa using this

theorem map_name_mk (v : String → Option ℚ) (l : List String) :
    (l.map (fun k => ({ name := k, value := v k } : CategoryEntry))).map
      (fun e => e.name) = l := by
  induction l with
  | nil => rfl
  | cons a t ih => simp [ih]

theorem lookupAcc_isSome_of_mem (acc : List (String × Option ℚ))
    (cat : String) : cat ∈ acc.map Prod.fst →
    ∃ v, lookupAcc acc cat = some v := by
  induction acc with
  | nil => intro h; simp at h
  | cons a t ih =>
    obtain ⟨c0, v0⟩ := a
    intro h
    by_cases hc : c0 = cat
    · exact ⟨v0, by simp [lookupAcc, hc]⟩
    · rw [List.map_cons] at h
      rcases List.mem_cons.mp h with h1 | h1
      · exact absurd h1.symm hc
      · obtain ⟨v, hv⟩ := ih h1
        exact ⟨v, by simp [lookupAcc, hc, hv]⟩

theorem mem_keyOrderJS (l : List String) (a : String) :
    a ∈ keyOrderJS l ↔ a ∈ l := by
  unfold keyOrderJS
  rw [List.mem_append, List.mem_insertionSort]
  constructor
  · rintro (h | h) <;> exact List.mem_of_mem_filter h
  · intro h
    by_cases hP : isArrayIndex a = true
    · exact Or.inl (List.mem_filter.mpr ⟨h, hP⟩)
    · exact Or.inr (List.mem_filter.mpr ⟨h, by simpa using hP⟩)

theorem nodup_keyOrderJS (l : List String) (h : l.Nodup) :
    (keyOrderJS l).Nodup := by
  unfold keyOrderJS
  rw [List.nodup_append]
  refine ⟨?_, ?_, ?_⟩
  · exact ((List.perm_insertionSort _ _).nodup_iff).mpr (h.filter _)
  · exact h.filter _
  · intro a ha hb
    have ha2 : a ∈ l.filter isArrayIndex :=
      (List.perm_insertionSort _ _).subset ha
    have hP : isArrayIndex a = true := (List.mem_filter.mp ha2).2
    have hnP := (List.mem_filter.mp hb).2
    rw [hP] at hnP
    simp at hnP

theorem keyOrderJS_of_no_index (l : List String)
    (h : ∀ a ∈ l, isArrayIndex a = false) : keyOrderJS l = l := by
  unfold keyOrderJS
  have h1 : l.filter isArrayIndex = [] := by
    rw [List.filter_eq_nil_iff]
    intro a ha
    simp [h a ha]
  have h2 : l.filter (fun k => !(isArrayIndex k)) = l := by
    rw [List.filter_eq_self]
    intro a ha
    simp [h a ha]
  rw [h1, h2]
  rfl

/-- Counterexample to C3 as stated: when the matched records carry the
caller-supplied categories "Food" then "7" (the store validates
nothing), the emitted entries are not in first-seen order — the
array-index-like key "7" is enumerated first, per JS own-property
order. -/
theorem C3_order_counterexample :
    (queryYearMonth sampleDBNum 2025 5).map (fun r => r.category) =
        ["Food", "7"] ∧
      firstSeenOrder ((queryYearMonth sampleDBNum 2025 5).map
          (fun r => r.category)) = ["Food", "7"] ∧
        getCostsByCategory sampleDBNum 2025 5 "USD" FetchResult.networkError =
            Except.ok [{ name := "7", value := some 50 },
              { name := "Food", value := some 100 }] ∧
          ([{ name := "7", value := (some 50 : Option ℚ) },
              { name := "Food", value := some 100 }] : List CategoryEntry).map
              (fun e => e.name) ≠ ["Food", "7"] := by
  refine ⟨by decide, by decide, by rfl, by decide⟩

/-- C3 (amended): on an opened store, when every matched record's
amount converts to a finite number, the pie-chart data has exactly one
`{name, value}` entry per distinct category of the matched records (no
duplicates, and no entry for a category with no match), each value the
sum of that category's converted amounts; the entries are ordered as JS
enumerates the accumulator's keys — array-index-like category names
(canonical numeric strings below 2^32 - 1) first in ascending numeric
order, then the remaining categories in first-seen scan order — which
is plain first-seen order whenever no matched category is such a
numeric string. -/
theorem C3_category_grouping (st : DBState) (y : Int) (m : Nat) (c : String)
    (f : FetchResult) (hop : st.opened = true)
    (hconv : ∀ r ∈ queryYearMonth st y m,
      (convertCurrency r.sum r.currency c (fetchExchangeRates f)).isSome =
        true) :
    ∃ chart, getCostsByCategory st y m c f = Except.ok chart ∧
      chart.map (fun e => e.name) =
          keyOrderJS (firstSeenOrder
            ((queryYearMonth st y m).map (fun r => r.category))) ∧
        (chart.map (fun e => e.name)).Nodup ∧
          (∀ cat, cat ∈ chart.map (fun e => e.name) ↔
            cat ∈ (queryYearMonth st y m).map (fun r => r.category)) ∧
            (∀ e ∈ chart, e.value = some
              ((((queryYearMonth st y m).filter
                  (fun r => r.category = e.name)).map
                (convQ c (fetchExchangeRates f))).sum)) ∧
              ((∀ cat ∈ (queryYearMonth st y m).map (fun r => r.category),
                  isArrayIndex cat = false) →
                chart.map (fun e => e.name) = firstSeenOrder
                  ((queryYearMonth st y m).map (fun r => r.category))) := by
  have hg := groupFold c (fetchExchangeRates f) (queryYearMonth st y m) [] []
    hconv rfl (by intro pr hpr; simp at hpr)
  have hkeys : ((queryYearMonth st y m).foldl
      (stepCategory c (fetchExchangeRates f)) []).map Prod.fst =
      firstSeenOrder ((queryYearMonth st y m).map (fun r => r.category)) := by
    have := hg.1
    simpa using this
  refine ⟨_, getCostsByCategory_opened st y m c f hop, ?_, ?_, ?_, ?_, ?_⟩
  · rw [map_name_mk, hkeys]
  · rw [map_name_mk, hkeys]
    exact nodup_keyOrderJS _ (nodup_firstSeenOrder _)
  · intro cat
    rw [map_name_mk, hkeys, mem_keyOrderJS, mem_firstSeenOrder]
  · intro e he
    rcases List.mem_map.mp he with ⟨k, hk, rfl⟩
    obtain ⟨v, hv⟩ := lookupAcc_isSome_of_mem _ k ((mem_keyOrderJS _ _).mp hk)
    have hval := hg.2 (k, v) (lookupAcc_some_mem _ k v hv)
    simp only [hv, Option.getD_some]
    simpa using hval
  · intro hno
    rw [map_name_mk, hkeys]
    exact keyOrderJS_of_no_index _ (fun a ha =>
      hno a ((mem_firstSeenOrder _ _).mp ha))

/-- Witness for the amended C3 at the sample store: the two Food
records (one USD, one GBP) yield a single Food entry, and since no
category is a numeric string the order is first-seen order. -/
theorem C3_category_grouping_witness :
    (sampleDB.opened = true ∧
        ∀ r ∈ queryYearMonth sampleDB 2025 5,
          (convertCurrency r.sum r.currency "USD"
            (fetchExchangeRates FetchResult.networkError)).isSome = true) ∧
      ∃ chart, getCostsByCategory sampleDB 2025 5 "USD"
          FetchResult.networkError = Except.ok chart ∧
        chart.map (fun e => e.name) =
            keyOrderJS (firstSeenOrder ((queryYearMonth sampleDB 2025 5).map
              (fun r => r.category))) ∧
          (chart.map (fun e => e.name)).Nodup ∧
            (∀ cat, cat ∈ chart.map (fun e => e.name) ↔
              cat ∈ (queryYearMonth sampleDB 2025 5).map
                (fun r => r.category)) ∧
              (∀ e ∈ chart, e.value = some
                ((((queryYearMonth sampleDB 2025 5).filter
                    (fun r => r.category = e.name)).map
                  (convQ "USD"
                    (fetchExchangeRates FetchResult.networkError))).sum)) ∧
                ((∀ cat ∈ (queryYearMonth sampleDB 2025 5).map
                    (fun r => r.category), isArrayIndex cat = false) →
                  chart.map (fun e => e.name) = firstSeenOrder
                    ((queryYearMonth sampleDB 2025 5).map
                      (fun r => r.category))) := by
  have hq : queryYearMonth sampleDB 2025 5 = [sampleRecord1, sampleRecord2] := by
    simp +decide [queryYearMonth, sampleDB, sampleRecord1, sampleRecord2]
  have hconv : ∀ r ∈ queryYearMonth sampleDB 2025 5,
      (convertCurrency r.sum r.currency "USD"
        (fetchExchangeRates FetchResult.networkError)).isSome = true := by
    rw [hq]
    intro r hr
    rcases List.mem_cons.mp hr with rfl | hr2
    · simp [sampleRecord1, convertCurrency]
    · rcases List.mem_cons.mp hr2 with rfl | hr3
      · show (convertCurrency 50 "GBP" "USD" fallbackRates).isSome = true
        rw [convertCurrency, if_neg (by decide)]
        rw [show lookupRate fallbackRates "GBP" = some (3/5) from rfl,
          show lookupRate fallbackRates "USD" = some 1 from rfl]
        simp only [jdiv]
        rw [if_neg (by norm_num : ¬((3/5 : ℚ) = 0))]
        simp [jmul]
      · simp at hr3
  exact ⟨⟨rfl, hconv⟩, C3_category_grouping sampleDB 2025 5 "USD"
    FetchResult.networkError rfl hconv⟩
